import Mathlib

/-!
Verification of the `fuse_rust` mutation-logging filesystem core.

This file gives a shallow embedding of the parts of the repository that the
checked claims are about:

* the `StateDiffAction` / `StateDiffLog` data model and its bincode wire
  encoding (`src/fuselog_core/src/statediff.rs`);
* `get_fid` FID interning and the interceptor's log-append behaviour
  (`src/fuselog_core/src/lib.rs`);
* the log pruner `prune_log` and the `get` command handler `send_statediff`
  (`src/fuselog_core/src/socket.rs`);
* the applier's decoder and action interpreter
  (`src/fuselog_apply/src/main.rs`).

Machine integers of the source (`u64`, `u32`) are modelled as `Nat`: none of
the modelled operations can overflow on the inputs the theorems quantify over
(no arithmetic other than `+ 1` counters and byte splitting is performed).
Rust `HashMap`s are modelled as association lists in insertion order; every
place where the source's iteration order could matter is noted next to the
definition that models it.
-/

/-- The action enum. The first eight constructors are, in order, exactly the
variants declared by `StateDiffAction` in `src/fuselog_core/src/statediff.rs`
(`Write`, `Unlink`, `Rename`, `Truncate`, `Link`, `Chown`, `Mkdir`, `Rmdir`).
The last three (`Create`, `Chmod`, `Symlink`) are NOT declared there, but are
pattern-matched by `prune_log` in `socket.rs` and by the applier in
`fuselog_apply/src/main.rs`; they are included so those functions can be
embedded. Constructor order in Lean carries no semantics; the wire tags are
given explicitly by `declTag` below. -/
inductive StateDiffAction where
  | Write (fid offset : Nat) (data : List Nat)
  | Unlink (fid : Nat)
  | Rename (from_fid to_fid : Nat)
  | Truncate (fid size : Nat)
  | Link (source_fid new_link_fid : Nat)
  | Chown (fid uid gid : Nat)
  | Mkdir (fid : Nat)
  | Rmdir (fid : Nat)
  | Create (fid uid gid mode : Nat)
  | Chmod (fid mode : Nat)
  | Symlink (link_fid : Nat) (target : String) (uid gid : Nat)
deriving DecidableEq

/-- `StateDiffLog` from `statediff.rs`: a FID table (`HashMap<u64, String>`,
modelled as an association list in insertion order) and the action vector. -/
structure StateDiffLog where
  fid_map : List (Nat × String)
  actions : List StateDiffAction
deriving DecidableEq

/-- Little-endian byte decomposition, `k` bytes. -/
def leBytes : Nat → Nat → List Nat
  | 0, _ => []
  | k + 1, n => n % 256 :: leBytes k (n / 256)

/-- The varint encoding of an unsigned integer used by
`bincode::config::standard()` (bincode 2): values below 251 are a single
byte; otherwise a width marker byte (251 = u16, 252 = u32, 253 = u64)
followed by the little-endian bytes of that width. -/
def varint (n : Nat) : List Nat :=
  if n < 251 then [n]
  else if n < 2 ^ 16 then 251 :: leBytes 2 n
  else if n < 2 ^ 32 then 252 :: leBytes 4 n
  else 253 :: leBytes 8 n

/-- The wire discriminant assigned by `#[derive(Encode)]` on the
`StateDiffAction` enum of `statediff.rs`: the variant's position in
declaration order. `Create`, `Chmod` and `Symlink` are not declared in that
file and therefore have no discriminant in the declared schema. -/
def declTag : StateDiffAction → Option Nat
  | .Write .. => some 0
  | .Unlink _ => some 1
  | .Rename .. => some 2
  | .Truncate .. => some 3
  | .Link .. => some 4
  | .Chown .. => some 5
  | .Mkdir _ => some 6
  | .Rmdir _ => some 7
  | .Create .. => none
  | .Chmod .. => none
  | .Symlink .. => none

/-- The byte sequence produced for one action by the derived bincode `Encode`
with `config::standard()`: the variant index (encoded as a `u32` varint)
followed by the fields in declaration order (`u64`/`u32` as varints, the
`Vec<u8>` payload length-prefixed with a `u64` varint). Variants absent from
the declared enum in `statediff.rs` have no encoding (`none`). -/
def encodeAction : StateDiffAction → Option (List Nat)
  | .Write fid offset data =>
      some (varint 0 ++ varint fid ++ varint offset ++ varint data.length ++ data)
  | .Unlink fid => some (varint 1 ++ varint fid)
  | .Rename f t => some (varint 2 ++ varint f ++ varint t)
  | .Truncate f s => some (varint 3 ++ varint f ++ varint s)
  | .Link s n => some (varint 4 ++ varint s ++ varint n)
  | .Chown f u g => some (varint 5 ++ varint f ++ varint u ++ varint g)
  | .Mkdir f => some (varint 6 ++ varint f)
  | .Rmdir f => some (varint 7 ++ varint f)
  | .Create .. => none
  | .Chmod .. => none
  | .Symlink .. => none

/-- Tag table written from the WORDS OF THE SPEC (wire-contract sentence of
section 4.1 plus the row order of the section 3 action table):
Create = 0, Write = 1, Unlink = 2, Truncate = 3, Rename = 4, Link = 5,
Chown = 6, Chmod = 7, Mkdir = 8, Rmdir = 9, Symlink = 10. Used only to be
compared against the encoder embedded from the source. -/
def specTableTag : StateDiffAction → Nat
  | .Create .. => 0
  | .Write .. => 1
  | .Unlink _ => 2
  | .Truncate .. => 3
  | .Rename .. => 4
  | .Link .. => 5
  | .Chown .. => 6
  | .Chmod .. => 7
  | .Mkdir _ => 8
  | .Rmdir _ => 9
  | .Symlink .. => 10

/-- `get_fid` from `fuselog_core/src/lib.rs`: reverse lookup of `path` among
the values of the FID table; on a miss, allocate `fid_map.len() + 1` and
insert. Returns the fid together with the updated log. The source iterates a
`HashMap` with `.iter().find(...)`; the list model scans in insertion order,
which agrees with the source whenever at most one entry carries the looked-up
path (the only situation the theorems below quantify over). -/
def get_fid (log : StateDiffLog) (path : String) : Nat × StateDiffLog :=
  match log.fid_map.find? (fun e => e.2 == path) with
  | some e => (e.1, log)
  | none =>
      let new_fid := log.fid_map.length + 1
      (new_fid, { log with fid_map := log.fid_map ++ [(new_fid, path)] })

/-- Log-append performed by the interceptor's `create` handler
(`FuseLogFS::create`) after the backing `File::create`, `set_permissions` and
`chown` all succeeded: it logs only `Chown { fid, uid, gid }` (no `Create`
action). The `mode` argument is applied to the backing file but never logged. -/
def createLog (path : String) (uid gid _mode : Nat) (log : StateDiffLog) : StateDiffLog :=
  let r := get_fid log path
  { r.2 with actions := r.2.actions ++ [.Chown r.1 uid gid] }

/-- Log-append performed by the interceptor's `write` handler after the
backing `write_all` succeeded: `Write { fid, offset, data }`. -/
def writeLog (path : String) (offset : Nat) (data : List Nat) (log : StateDiffLog) : StateDiffLog :=
  let r := get_fid log path
  { r.2 with actions := r.2.actions ++ [.Write r.1 offset data] }

/-- Log-append performed by the interceptor's `unlink` handler after the
backing `remove_file` succeeded: `Unlink { fid }`. -/
def unlinkLog (path : String) (log : StateDiffLog) : StateDiffLog :=
  let r := get_fid log path
  { r.2 with actions := r.2.actions ++ [.Unlink r.1] }

/-- Log-appends performed by the interceptor's `setattr` handler
(`FuseLogFS::setattr`), assuming every attempted backing syscall succeeds:
if `size` is given, truncate and log `Truncate`; the `mode` argument is NOT
applied and NOT logged (the source carries the comment "Chmod is not
implemented in StateDiffAction"); if `uid` or `gid` is given, chown and log
`Chown { fid, final_uid, final_gid }` where a missing uid/gid falls back to
the current file metadata (`curUid`/`curGid`). -/
def setattrLog (path : String) (_mode uid gid size : Option Nat) (curUid curGid : Nat)
    (log : StateDiffLog) : StateDiffLog :=
  let log1 :=
    match size with
    | some newSize =>
        let r := get_fid log path
        { r.2 with actions := r.2.actions ++ [.Truncate r.1 newSize] }
    | none => log
  if uid.isSome || gid.isSome then
    let finalUid := uid.getD curUid
    let finalGid := gid.getD curGid
    let r := get_fid log1 path
    { r.2 with actions := r.2.actions ++ [.Chown r.1 finalUid finalGid] }
  else log1

/-- `PruneState` from `socket.rs`. -/
structure PruneState where
  creationIdx : Option Nat := none
  lastChmodIdx : Option Nat := none
  lastChownIdx : Option Nat := none
deriving DecidableEq

/-- State of the first pass of `prune_log`: the per-FID `PruneState` table
(`file_states`, a `HashMap` whose `entry(..).or_default()` discipline is
modelled as a total function defaulting to `PruneState::default()`; the
source's `get(fid)` returning `None` and an entry whose `creation_idx` is
`None` are observationally identical at the single place `get` is used),
the indices of slots overwritten with `None` (`dropped`) and the FIDs marked
for purging (`fids_to_purge`). -/
structure Pass1 where
  fs : Nat → PruneState
  dropped : List Nat
  purge : List Nat

/-- Pointwise update of the `file_states` table. -/
def updateFs (g : Nat → PruneState) (fid : Nat) (st : PruneState) : Nat → PruneState :=
  fun f => if f = fid then st else g f

/-- One iteration of the first `for` loop of `prune_log`, processing the
action at absolute index `i`. -/
def pass1Step (i : Nat) (a : StateDiffAction) (s : Pass1) : Pass1 :=
  match a with
  | .Create fid _ _ _ =>
      { s with fs := updateFs s.fs fid { s.fs fid with creationIdx := some i } }
  | .Mkdir fid =>
      { s with fs := updateFs s.fs fid { s.fs fid with creationIdx := some i } }
  | .Symlink fid _ _ _ =>
      { s with fs := updateFs s.fs fid { s.fs fid with creationIdx := some i } }
  | .Chmod fid _ =>
      let prev := (s.fs fid).lastChmodIdx
      let s1 := { s with fs := updateFs s.fs fid { s.fs fid with lastChmodIdx := some i } }
      match prev with
      | some p => { s1 with dropped := p :: s1.dropped }
      | none => s1
  | .Chown fid _ _ =>
      let prev := (s.fs fid).lastChownIdx
      let s1 := { s with fs := updateFs s.fs fid { s.fs fid with lastChownIdx := some i } }
      match prev with
      | some p => { s1 with dropped := p :: s1.dropped }
      | none => s1
  | .Unlink fid =>
      if ((s.fs fid).creationIdx).isSome then { s with purge := fid :: s.purge } else s
  | .Rmdir fid =>
      if ((s.fs fid).creationIdx).isSome then { s with purge := fid :: s.purge } else s
  | .Write .. => s
  | .Rename .. => s
  | .Truncate .. => s
  | .Link .. => s

/-- The first pass of `prune_log`, starting at absolute index `i`. During the
source's loop a slot can only be overwritten with `None` at an index strictly
below the one being visited (the overwritten index always comes from a
`last_*_idx` recorded at an earlier iteration), so every original action is
visited exactly once and the loop is a pure left fold. -/
def pass1Go : Nat → List StateDiffAction → Pass1 → Pass1
  | _, [], s => s
  | i, a :: t, s => pass1Go (i + 1) t (pass1Step i a s)

/-- Initial first-pass state: empty `file_states`, no slots dropped, no FIDs
to purge. -/
def pass1Init : Pass1 := ⟨fun _ => {}, [], []⟩

/-- The FIDs mentioned by an action, exactly as collected into `action_fids`
by the second loop of `prune_log`. -/
def actionFids : StateDiffAction → List Nat
  | .Create fid _ _ _ => [fid]
  | .Write fid _ _ => [fid]
  | .Unlink fid => [fid]
  | .Truncate fid _ => [fid]
  | .Chown fid _ _ => [fid]
  | .Chmod fid _ => [fid]
  | .Mkdir fid => [fid]
  | .Rmdir fid => [fid]
  | .Symlink link_fid _ _ _ => [link_fid]
  | .Rename from_fid to_fid => [from_fid, to_fid]
  | .Link source_fid new_link_fid => [source_fid, new_link_fid]

/-- Whether the second loop of `prune_log` keeps the action at absolute index
`i`: its slot was not overwritten with `None` and none of its FIDs is marked
for purging. -/
def keepAction (s : Pass1) (i : Nat) (a : StateDiffAction) : Prop :=
  i ∉ s.dropped ∧ ∀ f ∈ actionFids a, f ∉ s.purge

instance (s : Pass1) (i : Nat) (a : StateDiffAction) : Decidable (keepAction s i a) := by
  unfold keepAction; infer_instance

/-- The second loop of `prune_log` (building `final_actions`), threading the
absolute index. -/
def keepFilter (s : Pass1) : Nat → List StateDiffAction → List StateDiffAction
  | _, [] => []
  | i, a :: t => if keepAction s i a then a :: keepFilter s (i + 1) t else keepFilter s (i + 1) t

/-- `prune_log` from `socket.rs`: early return on an empty action list;
otherwise run the two passes and retain in the FID table only FIDs still
referenced by a surviving action (`used_fids`). -/
def prune_log (log : StateDiffLog) : StateDiffLog :=
  if log.actions.isEmpty then log
  else
    let s := pass1Go 0 log.actions pass1Init
    let kept := keepFilter s 0 log.actions
    let used := kept.flatMap actionFids
    { fid_map := log.fid_map.filter (fun e => decide (e.1 ∈ used)), actions := kept }

/-- `AdaptiveState` from `socket.rs`: the ring of raw bincode samples and the
optional trained dictionary (the `Arc<Vec<u8>>` is modelled by its byte
contents; see `dictStrongCount` for the reference count). -/
structure AdaptiveState where
  training_buffer : List (List Nat)
  encoder_dict : Option (List Nat)
deriving DecidableEq

/-- The value of `Arc::strong_count(&dict)` at the check inside
`send_statediff`. Exactly two strong references exist there: the one held in
`ADAPTIVE_STATE.encoder_dict` and the local clone `dict_arc_option`; the
compressor borrows the bytes (`&dict`) without cloning the `Arc`, the local
clone is dropped at the end of every `get`, and both the client loop and the
listener handle requests strictly sequentially, so no other reference can be
alive at the check. -/
def dictStrongCount : Nat := 2

/-- The byte value of the frame header `'n'`. -/
def nTag : Nat := 110

/-- The byte value of the frame header `'z'`. -/
def zTag : Nat := 122

/-- The byte value of the frame header `'d'`. -/
def dTag : Nat := 100

/-- The cleared log produced by `log.actions.clear(); log.fid_map.clear()`. -/
def emptyLog : StateDiffLog := ⟨[], []⟩

/-- The serialise / compress / clear portion of `send_statediff` from
`socket.rs`, acting on the (already pruned, when enabled) log `log1`.
Returns the final log contents, the final adaptive state and `some payload`
when a framed payload reaches the socket write (the two `stream.write_all`
calls are outside the modelled state transition), or `none` when
serialisation or compression failed and the handler returned early through
`?` — leaving `log1` as the log state. The serializer and the compressors
are parameters because `bincode::encode_to_vec`, `zstd::bulk::Compressor`
and `zstd::encode_all` are external crates; the claims proved below hold for
every behaviour of them. -/
def send_statediff_core (compressionEnabled adaptiveEnabled : Bool)
    (ser : StateDiffLog → Except Unit (List Nat))
    (compressWithDict : List Nat → List Nat → Except Unit (List Nat))
    (compressStd : List Nat → Except Unit (List Nat))
    (log1 : StateDiffLog) (ast : AdaptiveState) :
    StateDiffLog × AdaptiveState × Option (List Nat) :=
  match ser log1 with
  | .error _ => (log1, ast, none)
  | .ok bincode_data =>
    if compressionEnabled && !bincode_data.isEmpty then
      if adaptiveEnabled then
        let ast1 := { ast with training_buffer := ast.training_buffer ++ [bincode_data] }
        match ast1.encoder_dict with
        | some dict =>
          match compressWithDict dict bincode_data with
          | .error _ => (log1, ast1, none)
          | .ok compressed_log =>
            let payload :=
              if dictStrongCount = 2 then
                dTag :: leBytes 4 dict.length ++ dict ++ zTag :: compressed_log
              else
                zTag :: compressed_log
            (emptyLog, ast1, some payload)
        | none =>
          match compressStd bincode_data with
          | .error _ => (log1, ast1, none)
          | .ok compressed_data => (emptyLog, ast1, some (zTag :: compressed_data))
      else
        match compressStd bincode_data with
        | .error _ => (log1, ast, none)
        | .ok compressed_data => (emptyLog, ast, some (zTag :: compressed_data))
    else
      (emptyLog, ast, some (nTag :: bincode_data))

/-- `send_statediff` from `socket.rs`: prune when `FUSELOG_PRUNE` is set,
then serialise, compress, frame and clear per `send_statediff_core`. -/
def send_statediff (pruneEnabled compressionEnabled adaptiveEnabled : Bool)
    (ser : StateDiffLog → Except Unit (List Nat))
    (compressWithDict : List Nat → List Nat → Except Unit (List Nat))
    (compressStd : List Nat → Except Unit (List Nat))
    (log : StateDiffLog) (ast : AdaptiveState) :
    StateDiffLog × AdaptiveState × Option (List Nat) :=
  send_statediff_core compressionEnabled adaptiveEnabled ser compressWithDict compressStd
    (if pruneEnabled then prune_log log else log) ast

/-- A regular-file inode as observed by the applier: contents and the
attributes set through `set_permissions` / `chown`. -/
structure FsFile where
  data : List Nat
  mode : Nat
  uid : Nat
  gid : Nat
deriving DecidableEq

/-- Attributes of a directory in the target tree. -/
structure DirAttr where
  mode : Nat
  uid : Nat
  gid : Nat
deriving DecidableEq

/-- A symbolic link in the target tree: raw target string and the owner set
through `lchown`. -/
structure SymlinkEntry where
  target : String
  uid : Nat
  gid : Nat
deriving DecidableEq

/-- The applier's target directory tree. Regular files live in an inode store
so that hard links alias the same contents (`names` maps a path to an inode
that may be shared); directories and symlinks are keyed by path. Freshly
created directories get attribute value 0 for the mode/owner fields the
source leaves to the environment (umask, effective uid). -/
structure Fs where
  store : List (Nat × FsFile)
  names : List (String × Nat)
  dirs : List (String × DirAttr)
  symlinks : List (String × SymlinkEntry)
  nextIno : Nat
deriving DecidableEq

/-- `Path::join` of the target root and a relative path from the FID table. -/
def joinPath (root rel : String) : String := root ++ "/" ++ rel

/-- Split a character list at every `/` (the semantics of splitting a path
string on the separator; implemented over the character list so that it
evaluates by kernel reduction). -/
def splitSlash : List Char → List (List Char)
  | [] => [[]]
  | c :: t =>
      if c = '/' then [] :: splitSlash t
      else
        match splitSlash t with
        | h :: r => (c :: h) :: r
        | [] => [[c]]

/-- The `/`-separated components of a path string. -/
def pathParts (p : String) : List String := (splitSlash p.data).map String.mk

/-- Join components with `/` separators. -/
def joinParts : List String → String
  | [] => ""
  | [x] => x
  | x :: xs => x ++ "/" ++ joinParts xs

/-- Whether `pre` is an initial run of `s` (character-list version of a
string prefix test). -/
def charsBegin : List Char → List Char → Bool
  | [], _ => true
  | _, [] => false
  | a :: as, b :: bs => a == b && charsBegin as bs

/-- Whether the path string `p` begins with the string `pre`. -/
def strBegins (p pre : String) : Bool := charsBegin pre.data p.data

/-- `Path::parent` on the flat string representation: drop the last
`/`-separated component; `none` for a single-component path (whose Rust
parent is the empty path, on which `create_dir_all` is a no-op). -/
def parentDir (p : String) : Option String :=
  let parts := pathParts p
  if parts.length ≤ 1 then none else some (joinParts parts.dropLast)

/-- Record a directory if it is not already present. -/
def addDir (path : String) (fs : Fs) : Fs :=
  if fs.dirs.any (fun e => e.1 == path) then fs
  else { fs with dirs := fs.dirs ++ [(path, ⟨0, 0, 0⟩)] }

/-- `std::fs::create_dir_all` on the directory named by the joined
components: create every missing ancestor, outermost first. -/
def mkdirAllParts (fs : Fs) (ps : List String) : Fs :=
  (List.range ps.length).foldl
    (fun acc k => addDir (joinParts (ps.take (k + 1))) acc) fs

/-- The `create_dir_all(parent)` preamble the applier runs before
file-creating actions. -/
def ensureParents (p : String) (fs : Fs) : Fs :=
  match parentDir p with
  | some par => mkdirAllParts fs (pathParts par)
  | none => fs

/-- Single-level symlink resolution, used for the syscalls that follow
symbolic links (`File::create`, `OpenOptions::open`, `set_permissions`).
A target starting with `/` is taken absolutely, otherwise relative to the
link's directory. (The repository's own scenarios create no symlink chains;
deeper resolution is not modelled.) -/
def resolveOnce (fs : Fs) (p : String) : String :=
  match fs.symlinks.find? (fun e => e.1 == p) with
  | some e =>
      if strBegins e.2.target "/" then e.2.target
      else
        match parentDir p with
        | some par => par ++ "/" ++ e.2.target
        | none => e.2.target
  | none => p

/-- Inode number bound to a path, if any. -/
def lookupIno (fs : Fs) (p : String) : Option Nat :=
  (fs.names.find? (fun e => e.1 == p)).map (fun e => e.2)

/-- Contents of an inode. -/
def getFile (fs : Fs) (ino : Nat) : Option FsFile :=
  (fs.store.find? (fun e => e.1 == ino)).map (fun e => e.2)

/-- Replace the contents of an inode. -/
def setFile (fs : Fs) (ino : Nat) (f : FsFile) : Fs :=
  { fs with store := fs.store.map (fun e => if e.1 == ino then (e.1, f) else e) }

/-- Allocate a fresh empty regular file bound to `p`. -/
def createNewFile (p : String) (fs : Fs) : Fs :=
  { fs with
    store := fs.store ++ [(fs.nextIno, ⟨[], 0, 0, 0⟩)]
    names := fs.names ++ [(p, fs.nextIno)]
    nextIno := fs.nextIno + 1 }

/-- `std::fs::File::create`: truncate the existing file at the (resolved)
path, or create a fresh one. -/
def fileCreateTrunc (p : String) (fs : Fs) : Fs :=
  let q := resolveOnce fs p
  match lookupIno fs q with
  | some ino =>
      match getFile fs ino with
      | some f => setFile fs ino { f with data := [] }
      | none => fs
  | none => createNewFile q fs

/-- `OpenOptions::new().write(true).create(true).open`: open the (resolved)
path without truncating, creating it if missing; returns the inode. -/
def fileEnsure (p : String) (fs : Fs) : Fs × Nat :=
  let q := resolveOnce fs p
  match lookupIno fs q with
  | some ino => (fs, ino)
  | none => (createNewFile q fs, fs.nextIno)

/-- `file.write_all(data)` after `seek(SeekFrom::Start(offset))`: overwrite
`data.length` bytes at `offset`, zero-filling any gap beyond the old end of
file (the backing filesystem's sparse-region behaviour). -/
def writeAt (old : List Nat) (offset : Nat) (d : List Nat) : List Nat :=
  let padded := old ++ List.replicate (offset - old.length) 0
  padded.take offset ++ d ++ padded.drop (offset + d.length)

/-- `file.set_len(size)`: truncate or zero-extend to `size` bytes. -/
def setLen (old : List Nat) (size : Nat) : List Nat :=
  old.take size ++ List.replicate (size - old.length) 0

/-- Whether anything (file, directory or symlink) occupies a path. -/
def pathOccupied (fs : Fs) (p : String) : Bool :=
  (lookupIno fs p).isSome || fs.dirs.any (fun e => e.1 == p) || fs.symlinks.any (fun e => e.1 == p)

/-- `get_full_path` from `fuselog_apply/src/main.rs`: resolve a FID through
the decoded log's FID table and join it to the target root; a FID absent from
the table aborts the applier with the "Unknown file ID" error. -/
def get_full_path (log : StateDiffLog) (fid : Nat) (root : String) : Except String String :=
  match log.fid_map.find? (fun e => e.1 == fid) with
  | some e => .ok (joinPath root e.2)
  | none => .error ("Unknown file ID: " ++ toString fid)

/-- `apply_create`: ensure parents, `File::create` (truncating), then
`set_permissions(mode)` and `chown(uid, gid)` on the created file. -/
def apply_create (log : StateDiffLog) (fid uid gid mode : Nat) (root : String)
    (fs : Fs) : Except String Fs := do
  let p ← get_full_path log fid root
  let fs := ensureParents p fs
  let fs := fileCreateTrunc p fs
  let q := resolveOnce fs p
  match lookupIno fs q with
  | some ino =>
      match getFile fs ino with
      | some f => .ok (setFile fs ino { f with mode := mode, uid := uid, gid := gid })
      | none => .error "stale inode"
  | none => .error "No such file or directory"

/-- `apply_write`: ensure parents, open-or-create, seek, write the slice. -/
def apply_write (log : StateDiffLog) (fid offset : Nat) (data : List Nat) (root : String)
    (fs : Fs) : Except String Fs := do
  let p ← get_full_path log fid root
  let fs := ensureParents p fs
  let (fs, ino) := fileEnsure p fs
  match getFile fs ino with
  | some f => .ok (setFile fs ino { f with data := writeAt f.data offset data })
  | none => .error "stale inode"

/-- `apply_truncate`: ensure parents, open-or-create, `set_len(size)`. -/
def apply_truncate (log : StateDiffLog) (fid size : Nat) (root : String)
    (fs : Fs) : Except String Fs := do
  let p ← get_full_path log fid root
  let fs := ensureParents p fs
  let (fs, ino) := fileEnsure p fs
  match getFile fs ino with
  | some f => .ok (setFile fs ino { f with data := setLen f.data size })
  | none => .error "stale inode"

/-- `apply_unlink`: `remove_file`; a missing path is a warning, not an error
(`Ok`); `remove_file` removes a symlink itself and fails on a directory. -/
def apply_unlink (log : StateDiffLog) (fid : Nat) (root : String)
    (fs : Fs) : Except String Fs := do
  let p ← get_full_path log fid root
  if fs.symlinks.any (fun e => e.1 == p) then
    .ok { fs with symlinks := fs.symlinks.filter (fun e => !(e.1 == p)) }
  else if fs.dirs.any (fun e => e.1 == p) then
    .error "Is a directory"
  else
    match lookupIno fs p with
    | some _ => .ok { fs with names := fs.names.filter (fun e => !(e.1 == p)) }
    | none => .ok fs

/-- Rewrite one path under a rename of `fro` to `tgt` (the entry itself and
everything below it). -/
def renamePath (fro tgt p : String) : String :=
  if p = fro then tgt
  else if strBegins p (fro ++ "/") then tgt ++ "/" ++ String.mk (p.data.drop (fro.data.length + 1))
  else p

/-- `apply_rename`: ensure the destination's parents, `std::fs::rename`
(which fails when the source is missing and replaces an existing destination
file or symlink). -/
def apply_rename (log : StateDiffLog) (from_fid to_fid : Nat) (root : String)
    (fs : Fs) : Except String Fs := do
  let pf ← get_full_path log from_fid root
  let pt ← get_full_path log to_fid root
  let fs := ensureParents pt fs
  if !pathOccupied fs pf then .error "No such file or directory"
  else
    let fs := { fs with
      names := fs.names.filter (fun e => !(e.1 == pt))
      symlinks := fs.symlinks.filter (fun e => !(e.1 == pt)) }
    .ok { fs with
      names := fs.names.map (fun e => (renamePath pf pt e.1, e.2))
      dirs := fs.dirs.map (fun e => (renamePath pf pt e.1, e.2))
      symlinks := fs.symlinks.map (fun e => (renamePath pf pt e.1, e.2)) }

/-- `apply_link`: ensure the destination's parents, `std::fs::hard_link`
(fails if the source file is missing or the destination exists); the new
path aliases the source inode. -/
def apply_link (log : StateDiffLog) (source_fid new_link_fid : Nat) (root : String)
    (fs : Fs) : Except String Fs := do
  let ps ← get_full_path log source_fid root
  let pn ← get_full_path log new_link_fid root
  let fs := ensureParents pn fs
  match lookupIno fs ps with
  | none => .error "No such file or directory"
  | some ino =>
      if pathOccupied fs pn then .error "File exists"
      else .ok { fs with names := fs.names ++ [(pn, ino)] }

/-- `apply_chown`: `lchown` (does not follow symlinks); a missing path is a
warning, not an error. -/
def apply_chown (log : StateDiffLog) (fid uid gid : Nat) (root : String)
    (fs : Fs) : Except String Fs := do
  let p ← get_full_path log fid root
  if fs.symlinks.any (fun e => e.1 == p) then
    let sl := fs.symlinks.map
      (fun e => if e.1 == p then (e.1, { e.2 with uid := uid, gid := gid }) else e)
    .ok { fs with symlinks := sl }
  else
    match lookupIno fs p with
    | some ino =>
        match getFile fs ino with
        | some f => .ok (setFile fs ino { f with uid := uid, gid := gid })
        | none => .error "stale inode"
    | none =>
        if fs.dirs.any (fun e => e.1 == p) then
          let ds := fs.dirs.map
            (fun e => if e.1 == p then (e.1, { e.2 with uid := uid, gid := gid }) else e)
          .ok { fs with dirs := ds }
        else .ok fs

/-- `apply_chmod`: `set_permissions` (follows symlinks); a missing path is a
warning, not an error. -/
def apply_chmod (log : StateDiffLog) (fid mode : Nat) (root : String)
    (fs : Fs) : Except String Fs := do
  let p ← get_full_path log fid root
  let q := resolveOnce fs p
  match lookupIno fs q with
  | some ino =>
      match getFile fs ino with
      | some f => .ok (setFile fs ino { f with mode := mode })
      | none => .error "stale inode"
  | none =>
      if fs.dirs.any (fun e => e.1 == q) then
        let ds := fs.dirs.map
          (fun e => if e.1 == q then (e.1, { e.2 with mode := mode }) else e)
        .ok { fs with dirs := ds }
      else .ok fs

/-- `apply_mkdir`: `create_dir_all` on the full path. -/
def apply_mkdir (log : StateDiffLog) (fid : Nat) (root : String)
    (fs : Fs) : Except String Fs := do
  let p ← get_full_path log fid root
  .ok (mkdirAllParts fs (pathParts p))

/-- `apply_rmdir`: `remove_dir`; a missing directory is a warning (`Ok`), a
non-empty one is an error. -/
def apply_rmdir (log : StateDiffLog) (fid : Nat) (root : String)
    (fs : Fs) : Except String Fs := do
  let p ← get_full_path log fid root
  if !(fs.dirs.any (fun e => e.1 == p)) then .ok fs
  else if fs.names.any (fun e => strBegins e.1 (p ++ "/"))
       || fs.dirs.any (fun e => strBegins e.1 (p ++ "/"))
       || fs.symlinks.any (fun e => strBegins e.1 (p ++ "/")) then
    .error "Directory not empty"
  else .ok { fs with dirs := fs.dirs.filter (fun e => !(e.1 == p)) }

/-- `apply_symlink`: ensure parents, `std::os::unix::fs::symlink` (fails if
the link path exists), then `lchown` the link itself. -/
def apply_symlink (log : StateDiffLog) (link_fid : Nat) (target : String) (uid gid : Nat)
    (root : String) (fs : Fs) : Except String Fs := do
  let pn ← get_full_path log link_fid root
  let fs := ensureParents pn fs
  if pathOccupied fs pn then .error "File exists"
  else .ok { fs with symlinks := fs.symlinks ++ [(pn, ⟨target, uid, gid⟩)] }

/-- The applier's per-action dispatch (the `match action` in `main`). -/
def applyAction (log : StateDiffLog) (root : String) (fs : Fs) :
    StateDiffAction → Except String Fs
  | .Create fid uid gid mode => apply_create log fid uid gid mode root fs
  | .Write fid offset data => apply_write log fid offset data root fs
  | .Unlink fid => apply_unlink log fid root fs
  | .Truncate fid size => apply_truncate log fid size root fs
  | .Rename from_fid to_fid => apply_rename log from_fid to_fid root fs
  | .Link source_fid new_link_fid => apply_link log source_fid new_link_fid root fs
  | .Chown fid uid gid => apply_chown log fid uid gid root fs
  | .Chmod fid mode => apply_chmod log fid mode root fs
  | .Mkdir fid => apply_mkdir log fid root fs
  | .Rmdir fid => apply_rmdir log fid root fs
  | .Symlink link_fid target uid gid => apply_symlink log link_fid target uid gid root fs

/-- The applier's replay loop: actions are applied in order; the first
failing action stops the loop (the `?` in `main` propagates the error) and
the target tree is left exactly as the successful prefix produced it —
nothing is rolled back. -/
def runActions (log : StateDiffLog) (root : String) :
    Fs → List StateDiffAction → Fs × Option String
  | fs, [] => (fs, none)
  | fs, a :: rest =>
      match applyAction log root fs a with
      | .ok fs' => runActions log root fs' rest
      | .error e => (fs, some e)

/-- Little-endian value of a byte list. -/
def leVal : List Nat → Nat
  | [] => 0
  | b :: t => b + 256 * leVal t

/-- `cursor.read_exact` of `k` bytes: the value read (little-endian) and the
remaining bytes, or `none` at a premature end of input. -/
def readLE (k : Nat) (bs : List Nat) : Option (Nat × List Nat) :=
  if bs.length < k then none else some (leVal (bs.take k), bs.drop k)

/-- The applier's header dispatch (`match compression_header` in
`fuselog_apply::main`) on a NON-EMPTY input buffer, producing the bincode
slice decoded into a log, together with the dictionary persisted to the
cache path when the `d` frame carried one. The zstd decompression routines
and the bincode decoder are parameters (external crates). The out-of-range
slice `&cursor.get_ref()[dict_start..dict_end]` of the source is a Rust
panic, modelled as an error. -/
def applierDecode
    (decompressWithDict : List Nat → List Nat → Except String (List Nat))
    (decompressPlain : List Nat → Except String (List Nat))
    (cachedDict : Option (List Nat))
    (decodeLog : List Nat → Except String StateDiffLog) :
    List Nat → Except String (StateDiffLog × Option (List Nat))
  | [] => .error "failed to fill whole buffer"
  | h :: rest =>
    if h = dTag then
      match readLE 4 rest with
      | none => .error "failed to fill whole buffer"
      | some (dictLen, rest1) =>
        if rest1.length < dictLen then .error "byte index out of range"
        else
          let dict := rest1.take dictLen
          match rest1.drop dictLen with
          | [] => .error "failed to fill whole buffer"
          | h2 :: data =>
            if h2 = zTag then
              match decompressWithDict dict data with
              | .error e => .error e
              | .ok bin =>
                  match decodeLog bin with
                  | .error e => .error e
                  | .ok log => .ok (log, some dict)
            else .error "Expected zstd compressed data after dictionary payload"
    else if h = zTag then
      let decompressed :=
        match cachedDict with
        | some d => decompressWithDict d rest
        | none => decompressPlain rest
      match decompressed with
      | .error e => .error e
      | .ok bin =>
          match decodeLog bin with
          | .error e => .error e
          | .ok log => .ok (log, none)
    else if h = nTag then
      match decodeLog rest with
      | .error e => .error e
      | .ok log => .ok (log, none)
    else .error "Unknown protocol header"

/-- The applier's `main`, from reading the statediff input buffer to the end
of the replay loop: an EMPTY input buffer returns success immediately ("No
changes to apply - log is empty") before any frame header is read; otherwise
the payload is decoded and the actions replayed against the target root.
Returns the final target tree and the number of actions applied. -/
def applierMain
    (decompressWithDict : List Nat → List Nat → Except String (List Nat))
    (decompressPlain : List Nat → Except String (List Nat))
    (cachedDict : Option (List Nat))
    (decodeLog : List Nat → Except String StateDiffLog)
    (root : String) (input : List Nat) (fs : Fs) : Except String (Fs × Nat) :=
  if input.isEmpty then .ok (fs, 0)
  else
    match applierDecode decompressWithDict decompressPlain cachedDict decodeLog input with
    | .error e => .error e
    | .ok (log, _) =>
        match runActions log root fs log.actions with
        | (fs', none) => .ok (fs', log.actions.length)
        | (_, some e) => .error e


/-- Claim C1 counterexample: the tag byte actually emitted for a `Rename`
action is its declaration position in `statediff.rs`, namely 2, not the
position 4 claimed from the section 3 table row order — so the claimed
tag assignment (Create=0, Write=1, Unlink=2, Truncate=3, Rename=4, ...) is
false of the encoder. -/
theorem C1_counterexample :
    ¬ ((encodeAction (StateDiffAction.Rename 1 2)).bind List.head? =
        some (specTableTag (StateDiffAction.Rename 1 2))) := by
  decide

/-- Claim C1, amended: for every action that the enum declared in
`statediff.rs` can represent, the tag byte emitted by the derived bincode
encoder is the variant's position in DECLARATION order — Write=0, Unlink=1,
Rename=2, Truncate=3, Link=4, Chown=5, Mkdir=6, Rmdir=7; the `Create`,
`Chmod` and `Symlink` rows of the section 3 table are not declared in
`statediff.rs` and have no encoding at all. -/
theorem C1_thm (a : StateDiffAction) (bs : List Nat)
    (h : encodeAction a = some bs) : bs.head? = declTag a := by
  cases a <;> simp only [encodeAction, Option.some.injEq, reduceCtorEq] at h <;>
    (subst h; simp [declTag, varint])

/-- Witness for `C1_thm` at a concrete action. -/
theorem C1_thm_witness :
    (varint 0 ++ varint 1 ++ varint 2 ++ varint 1 ++ [9]).head? =
      declTag (StateDiffAction.Write 1 2 [9]) :=
  C1_thm (StateDiffAction.Write 1 2 [9]) (varint 0 ++ varint 1 ++ varint 2 ++ varint 1 ++ [9]) rfl

/-- Claim C9: `prune_log` returns a log with an empty action list completely
unchanged — the early `return` fires before FID-table compaction, so a
non-empty FID table survives pruning of an action-free log. -/
theorem C9_thm (log : StateDiffLog) (h : log.actions = []) : prune_log log = log := by
  simp [prune_log, h]

/-- Witness for `C9_thm`: an action-free log with a non-empty FID table is
returned untouched, FID table included. -/
theorem C9_thm_witness :
    prune_log ⟨[(1, "a")], []⟩ = ⟨[(1, "a")], []⟩ ∧
      (prune_log ⟨[(1, "a")], []⟩).fid_map ≠ [] := by
  have h := C9_thm ⟨[(1, "a")], []⟩ rfl
  exact ⟨h, by rw [h]; decide⟩

/-- Claim C10: on a zero-byte statediff input file the applier returns
success immediately — for every behaviour of the decompressors and the
bincode decoder and every target tree, the result is `ok` with the target
tree unchanged and zero actions applied; no frame header is ever examined
(the header dispatch `applierDecode` is not reached). -/
theorem C10_thm
    (decompressWithDict : List Nat → List Nat → Except String (List Nat))
    (decompressPlain : List Nat → Except String (List Nat))
    (cachedDict : Option (List Nat))
    (decodeLog : List Nat → Except String StateDiffLog)
    (root : String) (fs : Fs) :
    applierMain decompressWithDict decompressPlain cachedDict decodeLog root [] fs =
      .ok (fs, 0) := rfl

/-- The log built by the interceptor for the S2 scenario: `create("tmp")`
(uid = gid = 1000, mode 0o644), a 1024-byte write at offset 0, then
`unlink("tmp")`, every backing syscall succeeding. -/
def c2Log : StateDiffLog :=
  unlinkLog "tmp"
    (writeLog "tmp" 0 (List.replicate 1024 0)
      (createLog "tmp" 1000 1000 420 emptyLog))

/-- Claim C2 counterexample: for the create/write-1024/unlink sequence on
`tmp`, a `get` with pruning enabled serialises `prune_log` of the logged
actions — and that pruned log is NOT empty (neither its action list nor its
FID table): the `create` handler logs `Chown`, not `Create`, so the pruner's
ephemeral-cancel rule (which looks for `Create`/`Mkdir`/`Symlink`) never
marks the FID and nothing is removed. -/
theorem C2_counterexample :
    ¬ ((prune_log c2Log).actions = [] ∧ (prune_log c2Log).fid_map = []) := by
  decide

set_option maxRecDepth 40000 in
/-- Claim C2, amended: for that same scenario the pruned log is returned
completely unchanged — the three actions `Chown`, `Write`, `Unlink` on FID 1
all survive and the FID table still maps 1 to "tmp". -/
theorem C2_thm :
    prune_log c2Log = c2Log ∧
      c2Log = ⟨[(1, "tmp")],
        [.Chown 1 1000 1000, .Write 1 0 (List.replicate 1024 0), .Unlink 1]⟩ := by
  exact ⟨by decide, by decide⟩

/-- Interning a path never changes the action vector. -/
theorem get_fid_actions (log : StateDiffLog) (path : String) :
    (get_fid log path).2.actions = log.actions := by
  unfold get_fid
  cases log.fid_map.find? (fun e => e.2 == path) <;> simp

/-- Claim C5 counterexample: a `setattr` carrying only a mode (0o644 here),
with every backing syscall succeeding, appends NO action at all to the log —
in particular no `Chmod`. The source's `setattr` has no chmod branch (its
comment says chmod "is not implemented in StateDiffAction"). -/
theorem C5_counterexample :
    (setattrLog "f" (some 420) none none none 0 0 emptyLog).actions = [] := by
  decide

/-- Claim C5, amended: `setattr` never logs a `Chmod`; the mode argument is
ignored entirely (the result does not depend on it), and the only actions a
`setattr` appends are a `Truncate` (when a size is given) followed by a
`Chown` (when uid or gid is given). -/
theorem C5_thm (path : String) (mode uid gid size : Option Nat) (curUid curGid : Nat)
    (log : StateDiffLog) :
    setattrLog path mode uid gid size curUid curGid log =
      setattrLog path none uid gid size curUid curGid log ∧
    ∀ a ∈ (setattrLog path mode uid gid size curUid curGid log).actions,
      a ∈ log.actions ∨ (∃ f s, a = .Truncate f s) ∨ (∃ f u g, a = .Chown f u g) := by
  refine ⟨rfl, ?_⟩
  intro a ha
  unfold setattrLog at ha
  by_cases hug : (uid.isSome || gid.isSome) = true <;> cases size <;>
    simp only [hug, if_true, Bool.not_eq_true, if_false, get_fid_actions,
      List.mem_append, List.mem_singleton] at ha <;>
    aesop

/-- Witness for `C5_thm`: concrete instance with mode and size both given. -/
theorem C5_thm_witness :
    setattrLog "f" (some 420) none none (some 7) 0 0 emptyLog =
      setattrLog "f" none none none (some 7) 0 0 emptyLog ∧
    (StateDiffAction.Truncate 1 7 ∈ (setattrLog "f" (some 420) none none (some 7) 0 0
        emptyLog).actions →
      StateDiffAction.Truncate 1 7 ∈ (emptyLog).actions ∨
      (∃ f s, StateDiffAction.Truncate 1 7 = StateDiffAction.Truncate f s) ∨
      (∃ f u g, StateDiffAction.Truncate 1 7 = StateDiffAction.Chown f u g)) := by
  have h := C5_thm "f" (some 420) none none (some 7) 0 0 emptyLog
  exact ⟨h.1, h.2 (StateDiffAction.Truncate 1 7)⟩

/-- In a FID table whose values are pairwise distinct, the reverse value
lookup finds exactly the entry carrying the looked-up path. -/
theorem find_entry_of_mem {m : List (Nat × String)} {fid : Nat} {path : String}
    (hnd : (m.map Prod.snd).Nodup) (hmem : (fid, path) ∈ m) :
    m.find? (fun e => e.2 == path) = some (fid, path) := by
  induction m with
  | nil => cases hmem
  | cons e t ih =>
    simp only [List.map_cons, List.nodup_cons] at hnd
    rcases List.mem_cons.mp hmem with he | ht
    · subst he
      exact List.find?_cons_of_pos _ (by simp)
    · have hval : path ∈ t.map Prod.snd := by
        exact List.mem_map.mpr ⟨(fid, path), ht, rfl⟩
      have hb : (e.2 == path) = false := by
        have hne : e.2 ≠ path := fun hb => hnd.1 (hb ▸ hval)
        simpa using hne
      rw [List.find?_cons, hb]
      exact ih hnd.2 ht

/-- Claim C6: FID interning is a stable dense allocator. (1) If the path is
already a value of the FID table (whose values are functional, i.e. pairwise
distinct — the invariant `get_fid` itself maintains), the existing key is
returned and the log is unchanged. (2) If the path is fresh, the returned
FID is `fid_map.len() + 1` and exactly that binding is appended. (3) Hence
for a table whose key set is exactly one to n, a fresh path gets FID n + 1
and the key set becomes exactly one to n + 1. -/
theorem C6_thm (log : StateDiffLog) (path : String) :
    ((log.fid_map.map Prod.snd).Nodup →
      ∀ fid, (fid, path) ∈ log.fid_map → get_fid log path = (fid, log)) ∧
    ((∀ e ∈ log.fid_map, e.2 ≠ path) →
      get_fid log path =
        (log.fid_map.length + 1,
          { log with fid_map := log.fid_map ++ [(log.fid_map.length + 1, path)] })) ∧
    (∀ n, (log.fid_map.map Prod.fst).Perm (List.range' 1 n) →
      (∀ e ∈ log.fid_map, e.2 ≠ path) →
      (get_fid log path).1 = n + 1 ∧
        (((get_fid log path).2.fid_map.map Prod.fst).Perm (List.range' 1 (n + 1)))) := by
  have hmiss : (∀ e ∈ log.fid_map, e.2 ≠ path) →
      log.fid_map.find? (fun e => e.2 == path) = none := by
    intro h
    exact List.find?_eq_none.mpr (fun e he => by simpa using h e he)
  refine ⟨?_, ?_, ?_⟩
  · intro hnd fid hmem
    unfold get_fid
    rw [find_entry_of_mem hnd hmem]
  · intro h
    unfold get_fid
    rw [hmiss h]
  · intro n hperm h
    have hlen : log.fid_map.length = n := by
      have := hperm.length_eq
      simpa [List.length_range'] using this
    unfold get_fid
    rw [hmiss h]
    refine ⟨by simp [hlen], ?_⟩
    simp only [List.map_append, List.map_cons, List.map_nil]
    have hconcat : List.range' 1 (n + 1) = List.range' 1 n ++ [n + 1] := by
      have h0 : List.range' 1 (n + 1) 1 = List.range' 1 n 1 ++ [1 + 1 * n] :=
        List.range'_concat 1 n
      simpa [Nat.add_comm] using h0
    rw [hconcat, hlen]
    exact hperm.append (List.Perm.refl [n + 1])

/-- Witness for `C6_thm`: a hit on an existing path returns its key and
leaves the table alone; a miss on a table with key set exactly the range one
to 1 appends key 2. -/
theorem C6_thm_witness :
    get_fid ⟨[(1, "a")], []⟩ "a" = (1, ⟨[(1, "a")], []⟩) ∧
    get_fid ⟨[(1, "a")], []⟩ "b" =
      (2, ⟨[(1, "a"), (2, "b")], []⟩) ∧
    (get_fid ⟨[(1, "a")], []⟩ "b").1 = 1 + 1 ∧
    (((get_fid ⟨[(1, "a")], []⟩ "b").2.fid_map.map Prod.fst).Perm (List.range' 1 2)) := by
  have h1 := (C6_thm ⟨[(1, "a")], []⟩ "a").1 (by decide) 1 (by decide)
  have h2 := (C6_thm ⟨[(1, "a")], []⟩ "b").2.1 (by decide)
  have h3 := (C6_thm ⟨[(1, "a")], []⟩ "b").2.2 1 (by decide) (by decide)
  exact ⟨h1, by simpa using h2, h3.1, h3.2⟩

/-- Drain behaviour of the serialise / compress / clear portion of
`send_statediff`: a produced payload implies the log was cleared, a failure
implies the log state is exactly the input log. -/
theorem send_statediff_core_drain (compressionEnabled adaptiveEnabled : Bool)
    (ser : StateDiffLog → Except Unit (List Nat))
    (compressWithDict : List Nat → List Nat → Except Unit (List Nat))
    (compressStd : List Nat → Except Unit (List Nat))
    (log1 : StateDiffLog) (ast : AdaptiveState) :
    (∀ p, (send_statediff_core compressionEnabled adaptiveEnabled
            ser compressWithDict compressStd log1 ast).2.2 = some p →
        (send_statediff_core compressionEnabled adaptiveEnabled
            ser compressWithDict compressStd log1 ast).1 = emptyLog) ∧
    ((send_statediff_core compressionEnabled adaptiveEnabled
        ser compressWithDict compressStd log1 ast).2.2 = none →
      (send_statediff_core compressionEnabled adaptiveEnabled
          ser compressWithDict compressStd log1 ast).1 = log1) := by
  unfold send_statediff_core
  refine ⟨fun p => ?_, ?_⟩ <;>
    rcases ser log1 with e | bin <;>
    dsimp only <;>
    (try (split <;> (try split) <;> (try split) <;> (try split) <;> (try split))) <;>
    simp_all

/-- Claim C3: `get` is an atomic destructive drain. For every combination of
toggles, serializer/compressor behaviour, log and adaptive state: when a
payload is produced (serialisation and compression succeeded) the log has
been cleared — both action vector and FID table are empty, so an immediately
following `get` serialises the empty log; when no payload is produced (the
serialise or compress step failed and `?` returned early) the log is left
exactly as it was, apart from pruning when that is enabled. -/
theorem C3_thm (pruneEnabled compressionEnabled adaptiveEnabled : Bool)
    (ser : StateDiffLog → Except Unit (List Nat))
    (compressWithDict : List Nat → List Nat → Except Unit (List Nat))
    (compressStd : List Nat → Except Unit (List Nat))
    (log : StateDiffLog) (ast : AdaptiveState) :
    (∀ p, (send_statediff pruneEnabled compressionEnabled adaptiveEnabled
            ser compressWithDict compressStd log ast).2.2 = some p →
        (send_statediff pruneEnabled compressionEnabled adaptiveEnabled
            ser compressWithDict compressStd log ast).1 = emptyLog) ∧
    ((send_statediff pruneEnabled compressionEnabled adaptiveEnabled
        ser compressWithDict compressStd log ast).2.2 = none →
      (send_statediff pruneEnabled compressionEnabled adaptiveEnabled
          ser compressWithDict compressStd log ast).1 =
        (if pruneEnabled then prune_log log else log)) := by
  unfold send_statediff
  exact send_statediff_core_drain compressionEnabled adaptiveEnabled
    ser compressWithDict compressStd (if pruneEnabled then prune_log log else log) ast

/-- Witness for `C3_thm`: with compression off and a serializer that
succeeds, the payload is emitted and the log is left cleared. -/
theorem C3_thm_witness :
    (send_statediff false false false (fun _ => .ok [5])
        (fun _ b => .ok b) (fun b => .ok b) ⟨[(1, "a")], [.Mkdir 1]⟩
        ⟨[], none⟩).1 = emptyLog := by
  have h := (C3_thm false false false (fun _ => .ok [5])
      (fun _ b => .ok b) (fun b => .ok b) ⟨[(1, "a")], [.Mkdir 1]⟩ ⟨[], none⟩).1
  exact h (nTag :: [5]) rfl

/-- A trained two-byte dictionary used for the C4 run. -/
def c4Dict : List Nat := [9, 9]

/-- Adaptive state holding an already-trained dictionary. -/
def c4Ast : AdaptiveState := ⟨[], some c4Dict⟩

/-- First `get` of the C4 run (adaptive compression on, identity
compressor). -/
def c4Run1 : StateDiffLog × AdaptiveState × Option (List Nat) :=
  send_statediff false true true (fun _ => .ok [1, 2, 3])
    (fun _ b => .ok b) (fun b => .ok b) c2Log c4Ast

/-- Second `get` of the C4 run, on the state the first one left behind. -/
def c4Run2 : StateDiffLog × AdaptiveState × Option (List Nat) :=
  send_statediff false true true (fun _ => .ok [1, 2, 3])
    (fun _ b => .ok b) (fun b => .ok b) c4Run1.1 c4Run1.2.1

/-- Claim C4 (code bug, evaluated at the failing input): with adaptive
compression enabled and the same trained dictionary active throughout, TWO
consecutive `get` commands BOTH emit a `d`-framed payload carrying the
dictionary — the `Arc::strong_count(&dict) == 2` test that is supposed to
detect first use is satisfied on every `get` (the state's reference plus the
local clone are always exactly two), so the claimed/specified behaviour
(`d` exactly once, then `z` alone) is violated by the code; the `z`-alone
branch ("Dictionary is old, just send the data") is unreachable in the
sequential protocol. -/
theorem C4_thm :
    (c4Run1.2.2.map List.head?) = some (some dTag) ∧
    (c4Run2.2.2.map List.head?) = some (some dTag) ∧
    c4Run1.2.1.encoder_dict = some c4Dict ∧
    c4Run2.2.1.encoder_dict = some c4Dict := by
  refine ⟨?_, ?_, ?_, ?_⟩ <;> decide

/-- Claim C8: replay is not rolled back on failure. If the decoded log's
action list splits as `pre ++ a :: post` where the prefix `pre` replays
cleanly, ending in target tree `fs'`, and action `a` then fails (for
example with the "Unknown file ID" error for a FID absent from the FID
table), the applier stops with that error and the resulting target tree is
exactly `fs'` — every effect of the successful prefix persists and nothing
after `a` runs. -/
theorem C8_thm (log : StateDiffLog) (root : String)
    (pre : List StateDiffAction) (a : StateDiffAction) (post : List StateDiffAction)
    (fs fs' : Fs) (e : String)
    (hpre : runActions log root fs pre = (fs', none))
    (hfail : applyAction log root fs' a = .error e) :
    runActions log root fs (pre ++ a :: post) = (fs', some e) := by
  induction pre generalizing fs with
  | nil =>
      simp only [runActions] at hpre
      obtain ⟨rfl, -⟩ := Prod.mk.injEq .. ▸ hpre
      simp only [List.nil_append, runActions, hfail]
  | cons b t ih =>
      simp only [runActions] at hpre
      rcases hb : applyAction log root fs b with e' | fs1
      · rw [hb] at hpre
        simp at hpre
      · rw [hb] at hpre
        simpa only [List.cons_append, runActions, hb] using ih fs1 hpre

/-- The decoded log used in the C8 witness run: FID 1 is mapped, FID 2 is
dangling. -/
def c8Log : StateDiffLog := ⟨[(1, "a.txt")], [.Write 1 0 [104, 105], .Unlink 2]⟩

/-- The empty target tree the C8 witness starts from. -/
def c8Fs0 : Fs := ⟨[], [], [], [], 0⟩

/-- The target tree after the successful `Write` prefix of the C8 run: the
file `t/a.txt` exists with the two written bytes. -/
def c8Fs1 : Fs :=
  ⟨[(0, ⟨[104, 105], 0, 0, 0⟩)], [("t/a.txt", 0)], [("t", ⟨0, 0, 0⟩)], [], 1⟩

/-- Witness for `C8_thm`: replaying `[Write fid 1, Unlink fid 2]` against an
empty target aborts on the dangling FID 2 with the "Unknown file ID" error,
and the target is left with the written file — partially updated, different
from the initial tree. -/
theorem C8_thm_witness :
    runActions c8Log "t" c8Fs0 ([.Write 1 0 [104, 105]] ++ .Unlink 2 :: []) =
      (c8Fs1, some "Unknown file ID: 2") ∧ c8Fs1 ≠ c8Fs0 := by
  constructor
  · exact C8_thm c8Log "t" [.Write 1 0 [104, 105]] (.Unlink 2) [] c8Fs0 c8Fs1
      "Unknown file ID: 2" (by decide) (by rfl)
  · decide

/-- Whether an action is a creation (`Create`/`Mkdir`/`Symlink`) of fid `f`,
exactly the variants that set `creation_idx` in the pruner's first pass. -/
def isCreationOf (f : Nat) : StateDiffAction → Bool
  | .Create fid _ _ _ => fid == f
  | .Mkdir fid => fid == f
  | .Symlink fid _ _ _ => fid == f
  | _ => false

/-- Whether an action is a removal (`Unlink`/`Rmdir`) of fid `f`. -/
def isRemovalOf (f : Nat) : StateDiffAction → Bool
  | .Unlink fid => fid == f
  | .Rmdir fid => fid == f
  | _ => false

/-- Whether an action is a `Chmod` of fid `f`. -/
def isChmodOf (f : Nat) : StateDiffAction → Bool
  | .Chmod fid _ => fid == f
  | _ => false

/-- Whether an action is a `Chown` of fid `f`. -/
def isChownOf (f : Nat) : StateDiffAction → Bool
  | .Chown fid _ _ => fid == f
  | _ => false

/-- A creation of `f` mentions `f`. -/
theorem mem_actionFids_of_creation {f : Nat} {a : StateDiffAction}
    (h : isCreationOf f a = true) : f ∈ actionFids a := by
  cases a <;> simp_all [isCreationOf, actionFids]

/-- Pointwise view of `updateFs`. -/
theorem updateFs_apply (g : Nat → PruneState) (fid : Nat) (st : PruneState) (f : Nat) :
    updateFs g fid st f = if f = fid then st else g f := rfl

/-- The `file_states` component produced by one pass-one step. -/
theorem step_fs (i : Nat) (a : StateDiffAction) (s : Pass1) :
    (pass1Step i a s).fs =
      match a with
      | .Create fid _ _ _ => updateFs s.fs fid { s.fs fid with creationIdx := some i }
      | .Mkdir fid => updateFs s.fs fid { s.fs fid with creationIdx := some i }
      | .Symlink fid _ _ _ => updateFs s.fs fid { s.fs fid with creationIdx := some i }
      | .Chmod fid _ => updateFs s.fs fid { s.fs fid with lastChmodIdx := some i }
      | .Chown fid _ _ => updateFs s.fs fid { s.fs fid with lastChownIdx := some i }
      | _ => s.fs := by
  cases a <;> simp only [pass1Step] <;>
    first
      | rfl
      | (split <;> rfl)
      | (dsimp only; split <;> rfl)

/-- The dropped-slot component produced by one pass-one step. -/
theorem step_dropped (i : Nat) (a : StateDiffAction) (s : Pass1) :
    (pass1Step i a s).dropped =
      match a with
      | .Chmod fid _ =>
          (match (s.fs fid).lastChmodIdx with
           | some p => p :: s.dropped
           | none => s.dropped)
      | .Chown fid _ _ =>
          (match (s.fs fid).lastChownIdx with
           | some p => p :: s.dropped
           | none => s.dropped)
      | _ => s.dropped := by
  cases a <;> simp only [pass1Step] <;>
    first
      | rfl
      | (split <;> rfl)
      | (dsimp only; split <;> rfl)

/-- The purge-set component produced by one pass-one step. -/
theorem step_purge (i : Nat) (a : StateDiffAction) (s : Pass1) :
    (pass1Step i a s).purge =
      match a with
      | .Unlink fid =>
          if ((s.fs fid).creationIdx).isSome then fid :: s.purge else s.purge
      | .Rmdir fid =>
          if ((s.fs fid).creationIdx).isSome then fid :: s.purge else s.purge
      | _ => s.purge := by
  cases a <;> simp only [pass1Step] <;>
    first
      | rfl
      | (split <;> rfl)
      | (dsimp only; split <;> rfl)

/-- Effect of one pass-one step on the recorded creation index of any fid. -/
theorem step_creationIdx (i : Nat) (a : StateDiffAction) (s : Pass1) (f : Nat) :
    ((pass1Step i a s).fs f).creationIdx =
      (if isCreationOf f a then some i else (s.fs f).creationIdx) := by
  cases a <;> rw [step_fs] <;> dsimp only <;>
    simp only [updateFs_apply, isCreationOf] <;>
    first
      | ((split <;> rename_i h) <;>
          first
            | (subst h; simp)
            | simp [Ne.symm h])
      | simp

/-- Effect of one pass-one step on the recorded last-chmod index of any fid. -/
theorem step_lastChmodIdx (i : Nat) (a : StateDiffAction) (s : Pass1) (f : Nat) :
    ((pass1Step i a s).fs f).lastChmodIdx =
      (if isChmodOf f a then some i else (s.fs f).lastChmodIdx) := by
  cases a <;> rw [step_fs] <;> dsimp only <;>
    simp only [updateFs_apply, isChmodOf] <;>
    first
      | ((split <;> rename_i h) <;>
          first
            | (subst h; simp)
            | simp [Ne.symm h])
      | simp

/-- Effect of one pass-one step on the recorded last-chown index of any fid. -/
theorem step_lastChownIdx (i : Nat) (a : StateDiffAction) (s : Pass1) (f : Nat) :
    ((pass1Step i a s).fs f).lastChownIdx =
      (if isChownOf f a then some i else (s.fs f).lastChownIdx) := by
  cases a <;> rw [step_fs] <;> dsimp only <;>
    simp only [updateFs_apply, isChownOf] <;>
    first
      | ((split <;> rename_i h) <;>
          first
            | (subst h; simp)
            | simp [Ne.symm h])
      | simp

/-- Membership in the purge set after one pass-one step. -/
theorem step_purge_mem (i : Nat) (a : StateDiffAction) (s : Pass1) (f : Nat) :
    f ∈ (pass1Step i a s).purge ↔
      f ∈ s.purge ∨
        (isRemovalOf f a = true ∧ ((s.fs f).creationIdx).isSome = true) := by
  cases a <;> rw [step_purge] <;> dsimp only <;>
    simp only [isRemovalOf] <;>
    first
      | ((split <;> rename_i hc) <;> (try simp only [List.mem_cons]) <;> aesop)
      | simp

/-- Membership in the dropped-slot set after one pass-one step. -/
theorem step_dropped_mem (i : Nat) (a : StateDiffAction) (s : Pass1) (j : Nat) :
    j ∈ (pass1Step i a s).dropped ↔
      j ∈ s.dropped
      ∨ (∃ f, isChmodOf f a = true ∧ (s.fs f).lastChmodIdx = some j)
      ∨ (∃ f, isChownOf f a = true ∧ (s.fs f).lastChownIdx = some j) := by
  cases a <;> rw [step_dropped] <;> dsimp only <;>
    simp only [isChmodOf, isChownOf] <;>
    first
      | (split <;> (try simp only [List.mem_cons]) <;> aesop)
      | simp

/-- Purge marks survive the whole first pass. -/
theorem pass1Go_purge_mono {f : Nat} : ∀ (t : List StateDiffAction) (i : Nat) (s : Pass1),
    f ∈ s.purge → f ∈ (pass1Go i t s).purge := by
  intro t
  induction t with
  | nil => intro i s h; exact h
  | cons a t ih =>
      intro i s h
      exact ih (i + 1) (pass1Step i a s) ((step_purge_mem i a s f).mpr (Or.inl h))

/-- Dropped slots survive the whole first pass. -/
theorem pass1Go_dropped_mono {j : Nat} : ∀ (t : List StateDiffAction) (i : Nat) (s : Pass1),
    j ∈ s.dropped → j ∈ (pass1Go i t s).dropped := by
  intro t
  induction t with
  | nil => intro i s h; exact h
  | cons a t ih =>
      intro i s h
      exact ih (i + 1) (pass1Step i a s) ((step_dropped_mem i a s j).mpr (Or.inl h))

/-- Soundness of purge marks: a fid marked by the first pass over `t` was
either already marked, or some action of `t` removes it while its creation
was recorded — by the incoming state or by an earlier action of `t`. -/
theorem pass1Go_purge_sound {f : Nat} : ∀ (t : List StateDiffAction) (i : Nat) (s : Pass1),
    f ∈ (pass1Go i t s).purge →
    f ∈ s.purge ∨
      ∃ (k : Nat) (ak : StateDiffAction), t[k]? = some ak ∧ isRemovalOf f ak = true ∧
        (((s.fs f).creationIdx).isSome = true ∨
          ∃ (m : Nat) (am : StateDiffAction),
            m < k ∧ t[m]? = some am ∧ isCreationOf f am = true) := by
  intro t
  induction t with
  | nil => intro i s h; exact Or.inl h
  | cons a t ih =>
      intro i s h
      rcases ih (i + 1) (pass1Step i a s) h with h1 | ⟨k, ak, hk, hr, hcond⟩
      · rcases (step_purge_mem i a s f).mp h1 with h2 | ⟨hrA, hcA⟩
        · exact Or.inl h2
        · exact Or.inr ⟨0, a, by simp, hrA, Or.inl hcA⟩
      · refine Or.inr ⟨k + 1, ak, by simpa using hk, hr, ?_⟩
        rcases hcond with hs | ⟨m, am, hm, hmm, hc⟩
        · by_cases hca : isCreationOf f a = true
          · exact Or.inr ⟨0, a, Nat.succ_pos k, by simp, hca⟩
          · left
            rw [step_creationIdx, if_neg (by simp [hca])] at hs
            exact hs
        · exact Or.inr ⟨m + 1, am, by omega, by simpa using hmm, hc⟩

/-- Completeness of purge marks, recorded-creation form: a removal of `f`
anywhere in `t` marks `f` when its creation index is already recorded. -/
theorem pass1Go_purge_complete_isSome {f : Nat} :
    ∀ (t : List StateDiffAction) (i : Nat) (s : Pass1) (k : Nat) (ak : StateDiffAction),
    ((s.fs f).creationIdx).isSome = true → t[k]? = some ak → isRemovalOf f ak = true →
    f ∈ (pass1Go i t s).purge := by
  intro t
  induction t with
  | nil => intro i s k ak h hk hr; simp at hk
  | cons a t ih =>
      intro i s k ak hc hk hr
      cases k with
      | zero =>
          simp only [List.getElem?_cons_zero, Option.some.injEq] at hk
          subst hk
          exact pass1Go_purge_mono t (i + 1) _
            ((step_purge_mem i a s f).mpr (Or.inr ⟨hr, hc⟩))
      | succ k =>
          simp only [List.getElem?_cons_succ] at hk
          refine ih (i + 1) (pass1Step i a s) k ak ?_ hk hr
          rw [step_creationIdx]
          split <;> simp_all

/-- Completeness of purge marks: a creation of `f` strictly before a removal
of `f` within `t` marks `f` for purging. -/
theorem pass1Go_purge_complete {f : Nat} :
    ∀ (t : List StateDiffAction) (i : Nat) (s : Pass1) (m k : Nat)
      (am ak : StateDiffAction),
    m < k → t[m]? = some am → isCreationOf f am = true →
    t[k]? = some ak → isRemovalOf f ak = true →
    f ∈ (pass1Go i t s).purge := by
  intro t
  induction t with
  | nil => intro i s m k am ak hmk hm; simp at hm
  | cons a t ih =>
      intro i s m k am ak hmk hm hcr hk hr
      cases m with
      | zero =>
          simp only [List.getElem?_cons_zero, Option.some.injEq] at hm
          subst hm
          obtain ⟨k', rfl⟩ : ∃ k', k = k' + 1 := ⟨k - 1, by omega⟩
          simp only [List.getElem?_cons_succ] at hk
          refine pass1Go_purge_complete_isSome t (i + 1) (pass1Step i a s) k' ak ?_ hk hr
          rw [step_creationIdx, if_pos (by simp [hcr])]
          rfl
      | succ m =>
          obtain ⟨k', rfl⟩ : ∃ k', k = k' + 1 := ⟨k - 1, by omega⟩
          simp only [List.getElem?_cons_succ] at hm hk
          exact ih (i + 1) _ m k' am ak (by omega) hm hcr hk hr

/-- Soundness of dropped slots: a slot dropped by the first pass over `t`
was already dropped, or is the pending last-chmod/last-chown index of the
incoming state overwritten by a matching action of `t`, or is the absolute
index of a chmod (chown) of some fid inside `t` that a later chmod (chown)
of the same fid inside `t` overwrites. -/
theorem pass1Go_dropped_sound {j : Nat} : ∀ (t : List StateDiffAction) (i : Nat) (s : Pass1),
    j ∈ (pass1Go i t s).dropped →
    j ∈ s.dropped
    ∨ (∃ (f : Nat), (s.fs f).lastChmodIdx = some j ∧
        ∃ (k : Nat) (ak : StateDiffAction), t[k]? = some ak ∧ isChmodOf f ak = true)
    ∨ (∃ (f : Nat), (s.fs f).lastChownIdx = some j ∧
        ∃ (k : Nat) (ak : StateDiffAction), t[k]? = some ak ∧ isChownOf f ak = true)
    ∨ (∃ (f k m : Nat) (ak am : StateDiffAction), k < m ∧
        t[k]? = some ak ∧ isChmodOf f ak = true ∧
        t[m]? = some am ∧ isChmodOf f am = true ∧ j = i + k)
    ∨ (∃ (f k m : Nat) (ak am : StateDiffAction), k < m ∧
        t[k]? = some ak ∧ isChownOf f ak = true ∧
        t[m]? = some am ∧ isChownOf f am = true ∧ j = i + k) := by
  intro t
  induction t with
  | nil => intro i s h; exact Or.inl h
  | cons a t ih =>
      intro i s h
      rcases ih (i + 1) (pass1Step i a s) h with h1 | h2 | h3 | h4 | h5
      · rcases (step_dropped_mem i a s j).mp h1 with hd | ⟨f, hcm, hidx⟩ | ⟨f, hcn, hidx⟩
        · exact Or.inl hd
        · exact Or.inr (Or.inl ⟨f, hidx, 0, a, by simp, hcm⟩)
        · exact Or.inr (Or.inr (Or.inl ⟨f, hidx, 0, a, by simp, hcn⟩))
      · obtain ⟨f, hidx, k, ak, hk, hcm⟩ := h2
        rw [step_lastChmodIdx] at hidx
        by_cases hca : isChmodOf f a = true
        · rw [if_pos (by simp [hca])] at hidx
          obtain rfl : i = j := by simpa using hidx
          exact Or.inr (Or.inr (Or.inr (Or.inl
            ⟨f, 0, k + 1, a, ak, by omega, by simp, hca, by simpa using hk, hcm, by omega⟩)))
        · rw [if_neg (by simp [hca])] at hidx
          exact Or.inr (Or.inl ⟨f, hidx, k + 1, ak, by simpa using hk, hcm⟩)
      · obtain ⟨f, hidx, k, ak, hk, hcn⟩ := h3
        rw [step_lastChownIdx] at hidx
        by_cases hca : isChownOf f a = true
        · rw [if_pos (by simp [hca])] at hidx
          obtain rfl : i = j := by simpa using hidx
          exact Or.inr (Or.inr (Or.inr (Or.inr
            ⟨f, 0, k + 1, a, ak, by omega, by simp, hca, by simpa using hk, hcn, by omega⟩)))
        · rw [if_neg (by simp [hca])] at hidx
          exact Or.inr (Or.inr (Or.inl ⟨f, hidx, k + 1, ak, by simpa using hk, hcn⟩))
      · obtain ⟨f, k, m, ak, am, hkm, hk, hc1, hm2, hc2, hj⟩ := h4
        exact Or.inr (Or.inr (Or.inr (Or.inl
          ⟨f, k + 1, m + 1, ak, am, by omega, by simpa using hk, hc1,
            by simpa using hm2, hc2, by omega⟩)))
      · obtain ⟨f, k, m, ak, am, hkm, hk, hc1, hm2, hc2, hj⟩ := h5
        exact Or.inr (Or.inr (Or.inr (Or.inr
          ⟨f, k + 1, m + 1, ak, am, by omega, by simpa using hk, hc1,
            by simpa using hm2, hc2, by omega⟩)))

/-- A pending last-chmod index is dropped as soon as `t` chmods the same
fid again. -/
theorem pass1Go_dropped_pending_chmod {f j : Nat} :
    ∀ (t : List StateDiffAction) (i : Nat) (s : Pass1),
    (s.fs f).lastChmodIdx = some j →
    (∃ (k : Nat) (ak : StateDiffAction), t[k]? = some ak ∧ isChmodOf f ak = true) →
    j ∈ (pass1Go i t s).dropped := by
  intro t
  induction t with
  | nil => rintro i s hidx ⟨k, ak, hk, -⟩; simp at hk
  | cons a t ih =>
      rintro i s hidx ⟨k, ak, hk, hcm⟩
      by_cases hca : isChmodOf f a = true
      · exact pass1Go_dropped_mono t (i + 1) _
          ((step_dropped_mem i a s j).mpr (Or.inr (Or.inl ⟨f, hca, hidx⟩)))
      · cases k with
        | zero =>
            simp only [List.getElem?_cons_zero, Option.some.injEq] at hk
            subst hk
            exact absurd hcm hca
        | succ k =>
            simp only [List.getElem?_cons_succ] at hk
            refine ih (i + 1) _ ?_ ⟨k, ak, hk, hcm⟩
            rw [step_lastChmodIdx, if_neg (by simp [hca])]
            exact hidx

/-- A pending last-chown index is dropped as soon as `t` chowns the same
fid again. -/
theorem pass1Go_dropped_pending_chown {f j : Nat} :
    ∀ (t : List StateDiffAction) (i : Nat) (s : Pass1),
    (s.fs f).lastChownIdx = some j →
    (∃ (k : Nat) (ak : StateDiffAction), t[k]? = some ak ∧ isChownOf f ak = true) →
    j ∈ (pass1Go i t s).dropped := by
  intro t
  induction t with
  | nil => rintro i s hidx ⟨k, ak, hk, -⟩; simp at hk
  | cons a t ih =>
      rintro i s hidx ⟨k, ak, hk, hcn⟩
      by_cases hca : isChownOf f a = true
      · exact pass1Go_dropped_mono t (i + 1) _
          ((step_dropped_mem i a s j).mpr (Or.inr (Or.inr ⟨f, hca, hidx⟩)))
      · cases k with
        | zero =>
            simp only [List.getElem?_cons_zero, Option.some.injEq] at hk
            subst hk
            exact absurd hcn hca
        | succ k =>
            simp only [List.getElem?_cons_succ] at hk
            refine ih (i + 1) _ ?_ ⟨k, ak, hk, hcn⟩
            rw [step_lastChownIdx, if_neg (by simp [hca])]
            exact hidx

/-- Completeness of dropped slots: a chmod of `f` strictly before another
chmod of `f` within `t` gets its (absolute) slot dropped. -/
theorem pass1Go_dropped_complete_chmod {f : Nat} :
    ∀ (t : List StateDiffAction) (i : Nat) (s : Pass1) (k m : Nat)
      (ak am : StateDiffAction),
    k < m → t[k]? = some ak → isChmodOf f ak = true →
    t[m]? = some am → isChmodOf f am = true →
    (i + k) ∈ (pass1Go i t s).dropped := by
  intro t
  induction t with
  | nil => intro i s k m ak am hkm hk; simp at hk
  | cons a t ih =>
      intro i s k m ak am hkm hk hc1 hm hc2
      cases k with
      | zero =>
          simp only [List.getElem?_cons_zero, Option.some.injEq] at hk
          subst hk
          obtain ⟨m', rfl⟩ : ∃ m', m = m' + 1 := ⟨m - 1, by omega⟩
          simp only [List.getElem?_cons_succ] at hm
          rw [show i + 0 = i from by omega]
          refine pass1Go_dropped_pending_chmod t (i + 1) _ ?_ ⟨m', am, hm, hc2⟩
          rw [step_lastChmodIdx, if_pos (by simp [hc1])]
      | succ k =>
          obtain ⟨m', rfl⟩ : ∃ m', m = m' + 1 := ⟨m - 1, by omega⟩
          simp only [List.getElem?_cons_succ] at hk hm
          rw [show i + (k + 1) = (i + 1) + k from by omega]
          exact ih (i + 1) _ k m' ak am (by omega) hk hc1 hm hc2

/-- Completeness of dropped slots, chown version. -/
theorem pass1Go_dropped_complete_chown {f : Nat} :
    ∀ (t : List StateDiffAction) (i : Nat) (s : Pass1) (k m : Nat)
      (ak am : StateDiffAction),
    k < m → t[k]? = some ak → isChownOf f ak = true →
    t[m]? = some am → isChownOf f am = true →
    (i + k) ∈ (pass1Go i t s).dropped := by
  intro t
  induction t with
  | nil => intro i s k m ak am hkm hk; simp at hk
  | cons a t ih =>
      intro i s k m ak am hkm hk hc1 hm hc2
      cases k with
      | zero =>
          simp only [List.getElem?_cons_zero, Option.some.injEq] at hk
          subst hk
          obtain ⟨m', rfl⟩ : ∃ m', m = m' + 1 := ⟨m - 1, by omega⟩
          simp only [List.getElem?_cons_succ] at hm
          rw [show i + 0 = i from by omega]
          refine pass1Go_dropped_pending_chown t (i + 1) _ ?_ ⟨m', am, hm, hc2⟩
          rw [step_lastChownIdx, if_pos (by simp [hc1])]
      | succ k =>
          obtain ⟨m', rfl⟩ : ∃ m', m = m' + 1 := ⟨m - 1, by omega⟩
          simp only [List.getElem?_cons_succ] at hk hm
          rw [show i + (k + 1) = (i + 1) + k from by omega]
          exact ih (i + 1) _ k m' ak am (by omega) hk hc1 hm hc2

/-- Unfolding of the second pruner loop on a cons cell. -/
theorem keepFilter_cons (s : Pass1) (i : Nat) (a : StateDiffAction) (t : List StateDiffAction) :
    keepFilter s i (a :: t) =
      if keepAction s i a then a :: keepFilter s (i + 1) t else keepFilter s (i + 1) t := rfl

/-- Every element of the kept list comes from the original list at some
absolute index at which it was kept. -/
theorem keepFilter_sound : ∀ (t : List StateDiffAction) (s : Pass1) (i0 j : Nat)
    (a : StateDiffAction), (keepFilter s i0 t)[j]? = some a →
    ∃ (q : Nat), t[q]? = some a ∧ keepAction s (i0 + q) a := by
  intro t
  induction t with
  | nil => intro s i0 j a hj; simp [keepFilter] at hj
  | cons b t ih =>
      intro s i0 j a hj
      rw [keepFilter_cons] at hj
      by_cases hkeep : keepAction s i0 b
      · rw [if_pos hkeep] at hj
        cases j with
        | zero =>
            simp only [List.getElem?_cons_zero, Option.some.injEq] at hj
            subst hj
            exact ⟨0, by simp, by simpa using hkeep⟩
        | succ j =>
            simp only [List.getElem?_cons_succ] at hj
            obtain ⟨q, hq, hk⟩ := ih s (i0 + 1) j a hj
            exact ⟨q + 1, by simpa using hq,
              by rw [show i0 + (q + 1) = i0 + 1 + q from by omega]; exact hk⟩
      · rw [if_neg hkeep] at hj
        obtain ⟨q, hq, hk⟩ := ih s (i0 + 1) j a hj
        exact ⟨q + 1, by simpa using hq,
          by rw [show i0 + (q + 1) = i0 + 1 + q from by omega]; exact hk⟩

/-- Two elements of the kept list in order come from the original list in
the same order, each kept at its absolute index. -/
theorem keepFilter_pairs : ∀ (t : List StateDiffAction) (s : Pass1) (i0 i' j' : Nat)
    (a b : StateDiffAction), i' < j' →
    (keepFilter s i0 t)[i']? = some a → (keepFilter s i0 t)[j']? = some b →
    ∃ (p q : Nat), p < q ∧ t[p]? = some a ∧ t[q]? = some b ∧
      keepAction s (i0 + p) a ∧ keepAction s (i0 + q) b := by
  intro t
  induction t with
  | nil => intro s i0 i' j' a b hij hi hj; simp [keepFilter] at hi
  | cons c t ih =>
      intro s i0 i' j' a b hij hi hj
      rw [keepFilter_cons] at hi hj
      by_cases hkeep : keepAction s i0 c
      · rw [if_pos hkeep] at hi hj
        obtain ⟨j'', rfl⟩ : ∃ j'', j' = j'' + 1 := ⟨j' - 1, by omega⟩
        simp only [List.getElem?_cons_succ] at hj
        cases i' with
        | zero =>
            simp only [List.getElem?_cons_zero, Option.some.injEq] at hi
            subst hi
            obtain ⟨q, hq, hkq⟩ := keepFilter_sound t s (i0 + 1) j'' b hj
            refine ⟨0, q + 1, by omega, by simp, by simpa using hq,
              by simpa using hkeep,
              by rw [show i0 + (q + 1) = i0 + 1 + q from by omega]; exact hkq⟩
        | succ i'' =>
            simp only [List.getElem?_cons_succ] at hi
            obtain ⟨p, q, hpq, hp, hq, hkp, hkq⟩ := ih s (i0 + 1) i'' j'' a b (by omega) hi hj
            refine ⟨p + 1, q + 1, by omega, by simpa using hp, by simpa using hq,
              by rw [show i0 + (p + 1) = i0 + 1 + p from by omega]; exact hkp,
              by rw [show i0 + (q + 1) = i0 + 1 + q from by omega]; exact hkq⟩
      · rw [if_neg hkeep] at hi hj
        obtain ⟨p, q, hpq, hp, hq, hkp, hkq⟩ := ih s (i0 + 1) i' j' a b hij hi hj
        refine ⟨p + 1, q + 1, by omega, by simpa using hp, by simpa using hq,
          by rw [show i0 + (p + 1) = i0 + 1 + p from by omega]; exact hkp,
          by rw [show i0 + (q + 1) = i0 + 1 + q from by omega]; exact hkq⟩

/-- When every action is kept at its absolute index, the second loop keeps
the whole list. -/
theorem keepFilter_all : ∀ (t : List StateDiffAction) (s : Pass1) (i0 : Nat),
    (∀ (j : Nat) (a : StateDiffAction), t[j]? = some a → keepAction s (i0 + j) a) →
    keepFilter s i0 t = t := by
  intro t
  induction t with
  | nil => intro s i0 h; rfl
  | cons a t ih =>
      intro s i0 h
      rw [keepFilter_cons, if_pos (by simpa using h 0 a (by simp))]
      congr 1
      refine ih s (i0 + 1) (fun j b hj => ?_)
      have := h (j + 1) b (by simpa using hj)
      rwa [show i0 + (j + 1) = i0 + 1 + j from by omega] at this

/-- `prune_log` on a log with an empty action list. -/
theorem prune_log_of_empty (log : StateDiffLog) (h : log.actions.isEmpty = true) :
    prune_log log = log := by
  simp [prune_log, h]

/-- `prune_log` on a log with a non-empty action list, spelled out. -/
theorem prune_log_of_nonempty (log : StateDiffLog) (h : ¬ log.actions.isEmpty = true) :
    prune_log log =
      { fid_map := log.fid_map.filter (fun e => decide (e.1 ∈
          (keepFilter (pass1Go 0 log.actions pass1Init) 0 log.actions).flatMap actionFids)),
        actions := keepFilter (pass1Go 0 log.actions pass1Init) 0 log.actions } := by
  unfold prune_log
  rw [if_neg h]

/-- Claim C7: the pruner is idempotent — for every log, action list and FID
table included, pruning a pruned log changes nothing. -/
theorem C7_thm (log : StateDiffLog) : prune_log (prune_log log) = prune_log log := by
  by_cases h0 : log.actions.isEmpty = true
  · have h1 := prune_log_of_empty log h0
    rw [h1]
    exact h1
  · rw [prune_log_of_nonempty log h0]
    set s := pass1Go 0 log.actions pass1Init with hs_def
    set K := keepFilter s 0 log.actions with hK_def
    by_cases hK : K.isEmpty = true
    · exact prune_log_of_empty _ (by simpa using hK)
    · rw [prune_log_of_nonempty _ (by simpa using hK)]
      have hpurge : ∀ f, f ∉ (pass1Go 0 K pass1Init).purge := by
        intro f hf
        rcases pass1Go_purge_sound K 0 pass1Init hf with h | ⟨k, ak, hk, hr, hcond⟩
        · simp [pass1Init] at h
        · rcases hcond with hsome | ⟨m, am, hm, hmm, hc⟩
          · simp [pass1Init, PruneState.creationIdx] at hsome
          · obtain ⟨p, q, hpq, hp, hq, hkp, hkq⟩ :=
              keepFilter_pairs log.actions s 0 m k am ak hm hmm hk
            have hfs : f ∈ s.purge :=
              pass1Go_purge_complete log.actions 0 pass1Init p q am ak hpq hp hc hq hr
            exact hkp.2 f (mem_actionFids_of_creation hc) hfs
      have hdrop : ∀ j, j ∉ (pass1Go 0 K pass1Init).dropped := by
        intro j hj
        rcases pass1Go_dropped_sound K 0 pass1Init hj with
          h | ⟨f, hidx, -⟩ | ⟨f, hidx, -⟩
          | ⟨f, k, m, ak, am, hkm, hk, hc1, hm2, hc2, hjk⟩
          | ⟨f, k, m, ak, am, hkm, hk, hc1, hm2, hc2, hjk⟩
        · simp [pass1Init] at h
        · simp [pass1Init, PruneState.lastChmodIdx] at hidx
        · simp [pass1Init, PruneState.lastChownIdx] at hidx
        · obtain ⟨p, q, hpq, hp, hq, hkp, hkq⟩ :=
            keepFilter_pairs log.actions s 0 k m ak am hkm hk hm2
          exact hkp.1 (pass1Go_dropped_complete_chmod log.actions 0 pass1Init p q ak am
            hpq hp hc1 hq hc2)
        · obtain ⟨p, q, hpq, hp, hq, hkp, hkq⟩ :=
            keepFilter_pairs log.actions s 0 k m ak am hkm hk hm2
          exact hkp.1 (pass1Go_dropped_complete_chown log.actions 0 pass1Init p q ak am
            hpq hp hc1 hq hc2)
      have hKK : keepFilter (pass1Go 0 K pass1Init) 0 K = K :=
        keepFilter_all K _ 0
          (fun j a _ => ⟨hdrop (0 + j), fun g _ => hpurge g⟩)
      have hKproj :
          ({ fid_map := log.fid_map.filter (fun e => decide (e.1 ∈ K.flatMap actionFids)),
             actions := K } : StateDiffLog).actions = K := rfl
      rw [hKproj] at *
      congr 1
      rw [hKK]
      refine List.filter_eq_self.mpr (fun e he => ?_)
      exact (List.mem_filter.mp he).2
